import Mathlib

/-!
Verification of the Turing-machine execution engine found in `src/main.rs`
of the simulator. The engine owns the tape (a contiguous `Vec<Symbol>`
window plus a signed `tape_offset`), the transition table, the breakpoint
registry, the head position, the step counter and the run status. The
Win32 presentation layer is not modelled except where an operation the
specification names lives only in a window-procedure handler; such spots
are noted on the corresponding definition.

Machine integers (`i64` positions, `u64` step counter, `u32` speed) are
modelled as `Int`/`Nat`: no reachable behaviour of the engine brings any
of them near their wrap-around points, and Rust debug builds abort rather
than wrap. The `HashSet<String>` of state breakpoints is modelled as a
`List String` queried by membership, the only operation `step` performs
on it.
-/

namespace TM

/-- Type `Symbol` from `src/main.rs`: the fixed three-symbol tape alphabet. -/
inductive Symbol where
  | Zero
  | One
  | Blank
deriving DecidableEq, Repr

/-- Type `Direction` from `src/main.rs`: head movement of a transition. -/
inductive Direction where
  | Left
  | Right
deriving DecidableEq, Repr

/-- Struct `Transition` from `src/main.rs`: one rule of the machine, keyed by
`(current_state, read_symbol)`, carrying a per-transition breakpoint flag. -/
structure Transition where
  current_state : String
  read_symbol : Symbol
  new_state : String
  write_symbol : Symbol
  direction : Direction
  has_breakpoint : Bool
deriving DecidableEq, Repr

instance : Inhabited Transition :=
  ⟨{ current_state := ""
     read_symbol := Symbol.Blank
     new_state := ""
     write_symbol := Symbol.Blank
     direction := Direction.Left
     has_breakpoint := false }⟩

/-- Enum `RunStatus` from `src/main.rs`. -/
inductive RunStatus where
  | Idle
  | Running
  | Accepted
  | Rejected
deriving DecidableEq, Repr

/-- The engine state of `struct TuringMachine` in `src/main.rs`, without the
window/font handles (presentation-only fields never read by the engine). -/
structure TuringMachine where
  tape : List Symbol
  tape_offset : Int
  head_pos : Int
  current_state : String
  start_state : String
  accept_state : String
  reject_state : String
  transitions : List Transition
  state_breakpoints : List String
  step_count : Nat
  status : RunStatus
  timer_speed_ms : Nat
deriving Repr

namespace TuringMachine

/-- Constructor `TuringMachine::new`: 101 blank cells, tape index 50 at position 0. -/
def new : TuringMachine where
  tape := List.replicate 101 Symbol.Blank
  tape_offset := -50
  head_pos := 0
  current_state := "q0"
  start_state := "q0"
  accept_state := "qa"
  reject_state := "qr"
  transitions := []
  state_breakpoints := []
  step_count := 0
  status := RunStatus.Idle
  timer_speed_ms := 500

/-- Method `TuringMachine::tape_index`: window index of an absolute position.
Only ever used after `ensure_tape`, so the difference is non-negative. -/
def tape_index (tm : TuringMachine) (pos : Int) : Nat :=
  (pos - tm.tape_offset).toNat

/-- Method `TuringMachine::ensure_tape`: grow the window so that `pos` is covered,
prepending blanks (and shifting the offset) when `pos` falls left of the
window, appending blanks when it falls right of it. -/
def ensure_tape (tm : TuringMachine) (pos : Int) : TuringMachine :=
  let idx := pos - tm.tape_offset
  if idx < 0 then
    let extra := (-idx).toNat
    { tm with
      tape := List.replicate extra Symbol.Blank ++ tm.tape
      tape_offset := tm.tape_offset - extra }
  else if tm.tape.length ≤ idx.toNat then
    { tm with
      tape := tm.tape ++ List.replicate (idx.toNat + 1 - tm.tape.length) Symbol.Blank }
  else
    tm

/-- Method `TuringMachine::read_tape`: ensure the cell under the head exists,
then read it.
The Rust method mutates `self` (the growth) and returns the symbol; here the
grown machine is returned alongside. -/
def read_tape (tm : TuringMachine) : TuringMachine × Symbol :=
  let tm := tm.ensure_tape tm.head_pos
  (tm, tm.tape.getD (tm.tape_index tm.head_pos) Symbol.Blank)

/-- Method `TuringMachine::write_tape`: ensure the cell under the head exists,
then store `sym` there. -/
def write_tape (tm : TuringMachine) (sym : Symbol) : TuringMachine :=
  let tm := tm.ensure_tape tm.head_pos
  { tm with tape := tm.tape.set (tm.tape_index tm.head_pos) sym }

/-- Method `TuringMachine::find_transition`: index of the first transition whose
`(current_state, read_symbol)` key matches. -/
def find_transition (tm : TuringMachine) (state : String) (sym : Symbol) : Option Nat :=
  tm.transitions.findIdx? fun t => t.current_state == state && t.read_symbol == sym

/-- Method `TuringMachine::step`, translated clause by clause from `src/main.rs`:
terminal guard, accept/reject entry guards, read, lookup, execute (write,
state change, head move, counter), accept/reject re-check, breakpoint check. -/
def step (tm : TuringMachine) : TuringMachine × Bool :=
  if tm.status = RunStatus.Accepted ∨ tm.status = RunStatus.Rejected then
    (tm, false)
  else if tm.current_state = tm.accept_state then
    ({ tm with status := RunStatus.Accepted }, false)
  else if tm.current_state = tm.reject_state then
    ({ tm with status := RunStatus.Rejected }, false)
  else
    let rd := tm.read_tape
    let tm1 := rd.1
    let sym := rd.2
    match tm1.find_transition tm1.current_state sym with
    | some idx =>
      let t := tm1.transitions.getD idx default
      let tm2 := tm1.write_tape t.write_symbol
      let tm3 := { tm2 with current_state := t.new_state }
      let tm4 :=
        match t.direction with
        | Direction.Left => { tm3 with head_pos := tm3.head_pos - 1 }
        | Direction.Right => { tm3 with head_pos := tm3.head_pos + 1 }
      let tm5 := { tm4 with step_count := tm4.step_count + 1 }
      if tm5.current_state = tm5.accept_state then
        ({ tm5 with status := RunStatus.Accepted }, false)
      else if tm5.current_state = tm5.reject_state then
        ({ tm5 with status := RunStatus.Rejected }, false)
      else if t.has_breakpoint || tm5.state_breakpoints.contains tm5.current_state then
        (tm5, false)
      else
        (tm5, true)
    | none => ({ tm1 with status := RunStatus.Rejected }, false)

/-- Method `TuringMachine::reset`: fresh all-blank window, head 0, start state,
counter 0, status Idle; table and breakpoints untouched. -/
def reset (tm : TuringMachine) : TuringMachine :=
  { tm with
    tape := List.replicate 101 Symbol.Blank
    tape_offset := -50
    head_pos := 0
    current_state := tm.start_state
    step_count := 0
    status := RunStatus.Idle }

/-- The `ID_BTN_ADD` handler in `wndproc` (`src/main.rs`): a new transition
is appended only when `find_transition` reports its key absent. The boolean
is the success signal that the specification names for `add_transition`; it is
true
exactly when the handler performs the `push`. -/
def add_transition (tm : TuringMachine) (t : Transition) : TuringMachine × Bool :=
  if (tm.find_transition t.current_state t.read_symbol).isNone then
    ({ tm with transitions := tm.transitions ++ [t] }, true)
  else
    (tm, false)

/-- Abstract tape content at an absolute position: the stored symbol when
the position is inside the materialized window, `Blank` otherwise. -/
def tape_at (tm : TuringMachine) (pos : Int) : Symbol :=
  if pos - tm.tape_offset < 0 then Symbol.Blank
  else tm.tape.getD (pos - tm.tape_offset).toNat Symbol.Blank

/-- Reading at an arbitrary absolute position: the Rust `read_tape` reads at
`head_pos`, so reading at `p` is `read_tape` with the head at `p` (the tape
window and offset are the only state the read consults or grows). -/
def read_at (tm : TuringMachine) (p : Int) : Symbol :=
  (({ tm with head_pos := p } : TuringMachine).read_tape).2

/-- Writing at an arbitrary absolute position, as `write_tape` with the head
at `p`. -/
def write_at (tm : TuringMachine) (p : Int) (s : Symbol) : TuringMachine :=
  ({ tm with head_pos := p } : TuringMachine).write_tape s

/-- A single tape operation: materialize a position, or write a symbol at a
position. -/
inductive TapeOp where
  | ensure (pos : Int)
  | write (pos : Int) (sym : Symbol)

/-- Run one tape operation on the engine. -/
def applyTapeOp (tm : TuringMachine) : TapeOp → TuringMachine
  | TapeOp.ensure p => tm.ensure_tape p
  | TapeOp.write p s => tm.write_at p s

/-- Run a sequence of tape operations, oldest first. -/
def applyTapeOps (tm : TuringMachine) : List TapeOp → TuringMachine
  | [] => tm
  | op :: ops => applyTapeOps (applyTapeOp tm op) ops

/-- The last symbol a sequence of tape operations writes at position `p`,
if any. -/
def lastWrite : List TapeOp → Int → Option Symbol
  | [], _ => none
  | op :: ops, p =>
    match lastWrite ops p with
    | some s => some s
    | none =>
      match op with
      | TapeOp.write q s => if q = p then some s else none
      | TapeOp.ensure _ => none

/-- Modelled from the spec: `set_speed(ms)` as an engine operation exists
only at the driver boundary. The `WM_HSCROLL` handler of the repository stores
the position reported by the Win32 trackbar control into `timer_speed_ms`;
the control itself is outside the repository, and per the spec it confines
its reported position to the closed range `[50, 2000]` that
`create_controls` configures with `TBM_SETRANGE`. The clamp below is that
confinement; the assignment is that of the handler. -/
def set_speed (tm : TuringMachine) (ms : Int) : TuringMachine :=
  { tm with timer_speed_ms := (max 50 (min 2000 ms)).toNat }

/-- Runs `n` consecutive `step()` calls (each acting on the machine the previous
call left behind). -/
def run_steps (tm : TuringMachine) : Nat → TuringMachine
  | 0 => tm
  | n + 1 => ((tm.run_steps n).step).1

end TuringMachine

/-- The unary-increment scenario machine of the specification: transition
table `{(q0,Zero)->(q0,Zero,R), (q0,One)->(q0,One,R), (q0,Blank)->(qa,One,R)}`
over the freshly constructed engine, with `One` written on the initial window
at positions 0 and 1 (window indices 50 and 51). -/
def incrementMachine : TuringMachine :=
  { TuringMachine.new with
    transitions := [
      { current_state := "q0", read_symbol := Symbol.Zero, new_state := "q0",
        write_symbol := Symbol.Zero, direction := Direction.Right,
        has_breakpoint := false },
      { current_state := "q0", read_symbol := Symbol.One, new_state := "q0",
        write_symbol := Symbol.One, direction := Direction.Right,
        has_breakpoint := false },
      { current_state := "q0", read_symbol := Symbol.Blank, new_state := "qa",
        write_symbol := Symbol.One, direction := Direction.Right,
        has_breakpoint := false }]
    tape := ((List.replicate 101 Symbol.Blank).set 50 Symbol.One).set 51 Symbol.One }

/-- A fresh machine already in the `Accepted` terminal status. -/
def acceptedMachine : TuringMachine :=
  { TuringMachine.new with status := RunStatus.Accepted }

/-- A fresh machine with a single rule stepping from the start state into the
accept state. -/
def acceptRuleMachine : TuringMachine :=
  { TuringMachine.new with
    transitions := [
      { current_state := "q0", read_symbol := Symbol.Blank, new_state := "qa",
        write_symbol := Symbol.One, direction := Direction.Right,
        has_breakpoint := false }] }

/-- A fresh machine with a single breakpointed rule into an ordinary state. -/
def breakpointRuleMachine : TuringMachine :=
  { TuringMachine.new with
    transitions := [
      { current_state := "q0", read_symbol := Symbol.Blank, new_state := "q1",
        write_symbol := Symbol.One, direction := Direction.Right,
        has_breakpoint := true }] }

/-- The single rule of `oneRuleMachine`. -/
def baseTransition : Transition :=
  { current_state := "q0", read_symbol := Symbol.Zero, new_state := "q1",
    write_symbol := Symbol.One, direction := Direction.Right,
    has_breakpoint := false }

/-- A one-rule machine used to exercise duplicate-key insertion. -/
def oneRuleMachine : TuringMachine :=
  { TuringMachine.new with transitions := [baseTransition] }

/-- A transition sharing `oneRuleMachine`-key `(q0, Zero)` but differing
elsewhere. -/
def clashingTransition : Transition :=
  { current_state := "q0", read_symbol := Symbol.Zero, new_state := "q2",
    write_symbol := Symbol.Zero, direction := Direction.Left,
    has_breakpoint := true }

namespace TuringMachine

/-! ### Characterization of `ensure_tape` branches -/

theorem ensure_tape_eq_prepend (tm : TuringMachine) (p : Int)
    (h : p - tm.tape_offset < 0) :
    tm.ensure_tape p =
      { tm with
        tape := List.replicate (-(p - tm.tape_offset)).toNat Symbol.Blank ++ tm.tape
        tape_offset := tm.tape_offset - ((-(p - tm.tape_offset)).toNat : Int) } := by
  simp only [ensure_tape, h, if_true]

theorem ensure_tape_eq_append (tm : TuringMachine) (p : Int)
    (h1 : ¬p - tm.tape_offset < 0) (h2 : tm.tape.length ≤ (p - tm.tape_offset).toNat) :
    tm.ensure_tape p =
      { tm with
        tape := tm.tape ++
          List.replicate ((p - tm.tape_offset).toNat + 1 - tm.tape.length) Symbol.Blank } := by
  simp only [ensure_tape, h1, h2, if_false, if_true]

theorem ensure_tape_eq_self (tm : TuringMachine) (p : Int)
    (h1 : ¬p - tm.tape_offset < 0) (h2 : ¬tm.tape.length ≤ (p - tm.tape_offset).toNat) :
    tm.ensure_tape p = tm := by
  simp only [ensure_tape, h1, h2, if_false]

/-- Lemma: `ensure_tape` only changes the window and its offset. -/
theorem ensure_tape_frame (tm : TuringMachine) (p : Int) :
    ∃ L o, tm.ensure_tape p = { tm with tape := L, tape_offset := o } := by
  by_cases h1 : p - tm.tape_offset < 0
  · exact ⟨_, _, tm.ensure_tape_eq_prepend p h1⟩
  · by_cases h2 : tm.tape.length ≤ (p - tm.tape_offset).toNat
    · exact ⟨_, tm.tape_offset, tm.ensure_tape_eq_append p h1 h2⟩
    · exact ⟨tm.tape, tm.tape_offset, tm.ensure_tape_eq_self p h1 h2⟩

/-! ### Frame lemmas: which fields each operation leaves untouched -/

@[simp] theorem ensure_tape_head_pos (tm : TuringMachine) (p : Int) :
    (tm.ensure_tape p).head_pos = tm.head_pos := by
  obtain ⟨L, o, h⟩ := tm.ensure_tape_frame p
  rw [h]

@[simp] theorem ensure_tape_current_state (tm : TuringMachine) (p : Int) :
    (tm.ensure_tape p).current_state = tm.current_state := by
  obtain ⟨L, o, h⟩ := tm.ensure_tape_frame p
  rw [h]

@[simp] theorem ensure_tape_accept_state (tm : TuringMachine) (p : Int) :
    (tm.ensure_tape p).accept_state = tm.accept_state := by
  obtain ⟨L, o, h⟩ := tm.ensure_tape_frame p
  rw [h]

@[simp] theorem ensure_tape_reject_state (tm : TuringMachine) (p : Int) :
    (tm.ensure_tape p).reject_state = tm.reject_state := by
  obtain ⟨L, o, h⟩ := tm.ensure_tape_frame p
  rw [h]

@[simp] theorem ensure_tape_start_state (tm : TuringMachine) (p : Int) :
    (tm.ensure_tape p).start_state = tm.start_state := by
  obtain ⟨L, o, h⟩ := tm.ensure_tape_frame p
  rw [h]

@[simp] theorem ensure_tape_transitions (tm : TuringMachine) (p : Int) :
    (tm.ensure_tape p).transitions = tm.transitions := by
  obtain ⟨L, o, h⟩ := tm.ensure_tape_frame p
  rw [h]

@[simp] theorem ensure_tape_state_breakpoints (tm : TuringMachine) (p : Int) :
    (tm.ensure_tape p).state_breakpoints = tm.state_breakpoints := by
  obtain ⟨L, o, h⟩ := tm.ensure_tape_frame p
  rw [h]

@[simp] theorem ensure_tape_step_count (tm : TuringMachine) (p : Int) :
    (tm.ensure_tape p).step_count = tm.step_count := by
  obtain ⟨L, o, h⟩ := tm.ensure_tape_frame p
  rw [h]

@[simp] theorem ensure_tape_status (tm : TuringMachine) (p : Int) :
    (tm.ensure_tape p).status = tm.status := by
  obtain ⟨L, o, h⟩ := tm.ensure_tape_frame p
  rw [h]

@[simp] theorem ensure_tape_timer_speed_ms (tm : TuringMachine) (p : Int) :
    (tm.ensure_tape p).timer_speed_ms = tm.timer_speed_ms := by
  obtain ⟨L, o, h⟩ := tm.ensure_tape_frame p
  rw [h]

/-- Lemma: `write_tape` only changes the window and its offset. -/
theorem write_tape_frame (tm : TuringMachine) (s : Symbol) :
    ∃ L o, tm.write_tape s = { tm with tape := L, tape_offset := o } := by
  obtain ⟨L, o, h⟩ := tm.ensure_tape_frame tm.head_pos
  exact ⟨_, o, by unfold write_tape tape_index; rw [h]⟩

@[simp] theorem write_tape_head_pos (tm : TuringMachine) (s : Symbol) :
    (tm.write_tape s).head_pos = tm.head_pos := by
  obtain ⟨L, o, h⟩ := tm.write_tape_frame s
  rw [h]

@[simp] theorem write_tape_current_state (tm : TuringMachine) (s : Symbol) :
    (tm.write_tape s).current_state = tm.current_state := by
  obtain ⟨L, o, h⟩ := tm.write_tape_frame s
  rw [h]

@[simp] theorem write_tape_accept_state (tm : TuringMachine) (s : Symbol) :
    (tm.write_tape s).accept_state = tm.accept_state := by
  obtain ⟨L, o, h⟩ := tm.write_tape_frame s
  rw [h]

@[simp] theorem write_tape_reject_state (tm : TuringMachine) (s : Symbol) :
    (tm.write_tape s).reject_state = tm.reject_state := by
  obtain ⟨L, o, h⟩ := tm.write_tape_frame s
  rw [h]

@[simp] theorem write_tape_start_state (tm : TuringMachine) (s : Symbol) :
    (tm.write_tape s).start_state = tm.start_state := by
  obtain ⟨L, o, h⟩ := tm.write_tape_frame s
  rw [h]

@[simp] theorem write_tape_transitions (tm : TuringMachine) (s : Symbol) :
    (tm.write_tape s).transitions = tm.transitions := by
  obtain ⟨L, o, h⟩ := tm.write_tape_frame s
  rw [h]

@[simp] theorem write_tape_state_breakpoints (tm : TuringMachine) (s : Symbol) :
    (tm.write_tape s).state_breakpoints = tm.state_breakpoints := by
  obtain ⟨L, o, h⟩ := tm.write_tape_frame s
  rw [h]

@[simp] theorem write_tape_step_count (tm : TuringMachine) (s : Symbol) :
    (tm.write_tape s).step_count = tm.step_count := by
  obtain ⟨L, o, h⟩ := tm.write_tape_frame s
  rw [h]

@[simp] theorem write_tape_status (tm : TuringMachine) (s : Symbol) :
    (tm.write_tape s).status = tm.status := by
  obtain ⟨L, o, h⟩ := tm.write_tape_frame s
  rw [h]

@[simp] theorem read_tape_fst (tm : TuringMachine) :
    (tm.read_tape).1 = tm.ensure_tape tm.head_pos := rfl

@[simp] theorem find_transition_ensure_tape (tm : TuringMachine) (p : Int)
    (st : String) (sy : Symbol) :
    (tm.ensure_tape p).find_transition st sy = tm.find_transition st sy := by
  unfold find_transition
  rw [ensure_tape_transitions]

/-! ### Tape-content lemmas -/

/-- Lemma: `ensure_tape` never changes the content at any absolute position. -/
theorem tape_at_ensure_tape (tm : TuringMachine) (p q : Int) :
    (tm.ensure_tape p).tape_at q = tm.tape_at q := by
  by_cases h1 : p - tm.tape_offset < 0
  · rw [tm.ensure_tape_eq_prepend p h1]
    unfold tape_at
    dsimp only
    by_cases hq : q - tm.tape_offset < 0
    · rw [if_pos hq]
      split
      · rfl
      · rw [List.getD_eq_getElem?_getD, List.getElem?_append_left
          (by rw [List.length_replicate]; omega), List.getElem?_replicate]
        split
        · rfl
        · rfl
    · rw [if_neg hq]
      rw [if_neg (show ¬q - (tm.tape_offset - ((-(p - tm.tape_offset)).toNat : Int)) < 0
        by omega)]
      rw [List.getD_eq_getElem?_getD, List.getD_eq_getElem?_getD,
        List.getElem?_append_right (by rw [List.length_replicate]; omega),
        List.length_replicate]
      rw [show (q - (tm.tape_offset - ((-(p - tm.tape_offset)).toNat : Int))).toNat -
          (-(p - tm.tape_offset)).toNat = (q - tm.tape_offset).toNat by omega]
  · by_cases h2 : tm.tape.length ≤ (p - tm.tape_offset).toNat
    · rw [tm.ensure_tape_eq_append p h1 h2]
      unfold tape_at
      dsimp only
      by_cases hq : q - tm.tape_offset < 0
      · rw [if_pos hq, if_pos hq]
      · rw [if_neg hq, if_neg hq]
        rw [List.getD_eq_getElem?_getD, List.getD_eq_getElem?_getD]
        by_cases hlen : (q - tm.tape_offset).toNat < tm.tape.length
        · rw [List.getElem?_append_left hlen]
        · rw [List.getElem?_eq_none (show tm.tape.length ≤ (q - tm.tape_offset).toNat
            by omega)]
          rw [List.getElem?_append_right (show tm.tape.length ≤ (q - tm.tape_offset).toNat
            by omega), List.getElem?_replicate]
          split
          · rfl
          · rfl
    · rw [tm.ensure_tape_eq_self p h1 h2]

/-- After `ensure_tape p`, position `p` is materialized: its window index is
in range. -/
theorem ensure_tape_covers (tm : TuringMachine) (p : Int) :
    0 ≤ p - (tm.ensure_tape p).tape_offset ∧
      (p - (tm.ensure_tape p).tape_offset).toNat < (tm.ensure_tape p).tape.length := by
  by_cases h1 : p - tm.tape_offset < 0
  · rw [tm.ensure_tape_eq_prepend p h1]
    dsimp only
    rw [List.length_append, List.length_replicate]
    omega
  · by_cases h2 : tm.tape.length ≤ (p - tm.tape_offset).toNat
    · rw [tm.ensure_tape_eq_append p h1 h2]
      dsimp only
      rw [List.length_append, List.length_replicate]
      omega
    · rw [tm.ensure_tape_eq_self p h1 h2]
      omega

/-- Setting a covered cell changes exactly that absolute position. -/
theorem tape_at_set (m : TuringMachine) (i : Nat) (pos : Int) (s : Symbol)
    (hi : (i : Int) = pos - m.tape_offset)
    (hc1 : i < m.tape.length) (q : Int) :
    ({ m with tape := m.tape.set i s } : TuringMachine).tape_at q =
      if q = pos then s else m.tape_at q := by
  unfold tape_at
  dsimp only
  by_cases hq : q = pos
  · subst hq
    rw [if_pos rfl, if_neg (show ¬q - m.tape_offset < 0 by omega)]
    rw [show (q - m.tape_offset).toNat = i by omega]
    rw [List.getD_eq_getElem?_getD, List.getElem?_set_self hc1]
    rfl
  · rw [if_neg hq]
    by_cases hneg : q - m.tape_offset < 0
    · rw [if_pos hneg, if_pos hneg]
    · rw [if_neg hneg, if_neg hneg]
      rw [List.getD_eq_getElem?_getD, List.getD_eq_getElem?_getD,
        List.getElem?_set_ne (show i ≠ (q - m.tape_offset).toNat by omega)]

/-- Lemma: `write_tape` sets the content under the head and preserves every other
position. -/
theorem tape_at_write_tape (tm : TuringMachine) (s : Symbol) (q : Int) :
    (tm.write_tape s).tape_at q =
      if q = tm.head_pos then s else tm.tape_at q := by
  have hcov := tm.ensure_tape_covers tm.head_pos
  have hi : (((tm.ensure_tape tm.head_pos).tape_index
      (tm.ensure_tape tm.head_pos).head_pos : Nat) : Int) =
      tm.head_pos - (tm.ensure_tape tm.head_pos).tape_offset := by
    unfold tape_index
    rw [ensure_tape_head_pos]
    omega
  have hlen : (tm.ensure_tape tm.head_pos).tape_index
      (tm.ensure_tape tm.head_pos).head_pos <
      (tm.ensure_tape tm.head_pos).tape.length := by
    unfold tape_index
    rw [ensure_tape_head_pos]
    exact hcov.2
  unfold write_tape
  dsimp only
  rw [tape_at_set (tm.ensure_tape tm.head_pos) _ tm.head_pos s hi hlen q,
    tape_at_ensure_tape]

/-- Reading returns the abstract content under the head. -/
theorem read_tape_snd (tm : TuringMachine) :
    (tm.read_tape).2 = tm.tape_at tm.head_pos := by
  have hcov := tm.ensure_tape_covers tm.head_pos
  rw [← tape_at_ensure_tape tm tm.head_pos tm.head_pos]
  unfold read_tape tape_at tape_index
  dsimp only
  rw [ensure_tape_head_pos,
    if_neg (show ¬tm.head_pos - (tm.ensure_tape tm.head_pos).tape_offset < 0 by omega)]

/-- A machine whose window is all blank has blank content everywhere. -/
theorem tape_at_of_replicate_blank (tm : TuringMachine) (n : Nat)
    (h : tm.tape = List.replicate n Symbol.Blank) (q : Int) :
    tm.tape_at q = Symbol.Blank := by
  unfold tape_at
  split
  · rfl
  · rw [h, List.getD_eq_getElem?_getD, List.getElem?_replicate]
    split
    · rfl
    · rfl

/-! ### Step-execution analysis -/

/-- When no guard fires and a transition is found, `step` runs the
write/state/move/count sequence and then the accept, reject and breakpoint
re-checks. -/
theorem step_exec (tm : TuringMachine) (idx : Nat)
    (hs : ¬(tm.status = RunStatus.Accepted ∨ tm.status = RunStatus.Rejected))
    (ha : ¬tm.current_state = tm.accept_state)
    (hr : ¬tm.current_state = tm.reject_state)
    (hf : tm.find_transition tm.current_state ((tm.read_tape).2) = some idx) :
    tm.step =
      (let t := tm.transitions.getD idx default
       let tm2 := ((tm.read_tape).1).write_tape t.write_symbol
       let tm3 := { tm2 with current_state := t.new_state }
       let tm4 :=
         match t.direction with
         | Direction.Left => { tm3 with head_pos := tm3.head_pos - 1 }
         | Direction.Right => { tm3 with head_pos := tm3.head_pos + 1 }
       let tm5 := { tm4 with step_count := tm4.step_count + 1 }
       if tm5.current_state = tm5.accept_state then
         ({ tm5 with status := RunStatus.Accepted }, false)
       else if tm5.current_state = tm5.reject_state then
         ({ tm5 with status := RunStatus.Rejected }, false)
       else if t.has_breakpoint || tm5.state_breakpoints.contains tm5.current_state then
         (tm5, false)
       else
         (tm5, true)) := by
  unfold step
  dsimp only
  rw [if_neg hs, if_neg ha, if_neg hr]
  rw [show ((tm.read_tape).1).find_transition ((tm.read_tape).1).current_state
      ((tm.read_tape).2) = tm.find_transition tm.current_state ((tm.read_tape).2) by
    rw [read_tape_fst, ensure_tape_current_state, find_transition_ensure_tape]]
  rw [hf]
  dsimp only
  rw [show ((tm.read_tape).1).transitions = tm.transitions by
    rw [read_tape_fst, ensure_tape_transitions]]

theorem tape_at_congr (m1 m2 : TuringMachine) (h1 : m1.tape = m2.tape)
    (h2 : m1.tape_offset = m2.tape_offset) (q : Int) :
    m1.tape_at q = m2.tape_at q := by
  unfold tape_at
  rw [h1, h2]

theorem step_exec_main (tm : TuringMachine) (idx : Nat)
    (hs : ¬(tm.status = RunStatus.Accepted ∨ tm.status = RunStatus.Rejected))
    (ha : ¬tm.current_state = tm.accept_state)
    (hr : ¬tm.current_state = tm.reject_state)
    (hf : tm.find_transition tm.current_state ((tm.read_tape).2) = some idx) :
    (tm.step).1.current_state = (tm.transitions.getD idx default).new_state
    ∧ (tm.step).1.step_count = tm.step_count + 1
    ∧ (tm.step).1.transitions = tm.transitions
    ∧ (tm.step).1.state_breakpoints = tm.state_breakpoints
    ∧ (tm.step).1.start_state = tm.start_state
    ∧ (tm.step).1.accept_state = tm.accept_state
    ∧ (tm.step).1.reject_state = tm.reject_state
    ∧ ((tm.transitions.getD idx default).direction = Direction.Left →
        (tm.step).1.head_pos = tm.head_pos - 1)
    ∧ ((tm.transitions.getD idx default).direction = Direction.Right →
        (tm.step).1.head_pos = tm.head_pos + 1) := by
  rw [step_exec tm idx hs ha hr hf]
  dsimp only
  rcases hdir : (tm.transitions.getD idx default).direction
  all_goals dsimp only
  all_goals simp only [read_tape_fst, write_tape_head_pos, write_tape_current_state,
    write_tape_accept_state, write_tape_reject_state, write_tape_start_state,
    write_tape_transitions, write_tape_state_breakpoints, write_tape_step_count,
    write_tape_status, ensure_tape_head_pos, ensure_tape_current_state,
    ensure_tape_accept_state, ensure_tape_reject_state, ensure_tape_start_state,
    ensure_tape_transitions, ensure_tape_state_breakpoints, ensure_tape_step_count,
    ensure_tape_status]
  repeat' split
  all_goals simp [hdir]

theorem step_exec_status (tm : TuringMachine) (idx : Nat)
    (hs : ¬(tm.status = RunStatus.Accepted ∨ tm.status = RunStatus.Rejected))
    (ha : ¬tm.current_state = tm.accept_state)
    (hr : ¬tm.current_state = tm.reject_state)
    (hf : tm.find_transition tm.current_state ((tm.read_tape).2) = some idx) :
    (tm.step).1.status =
      (if (tm.transitions.getD idx default).new_state = tm.accept_state then
        RunStatus.Accepted
       else if (tm.transitions.getD idx default).new_state = tm.reject_state then
        RunStatus.Rejected
       else tm.status) := by
  rw [step_exec tm idx hs ha hr hf]
  dsimp only
  rcases hdir : (tm.transitions.getD idx default).direction
  all_goals dsimp only
  all_goals simp only [read_tape_fst, write_tape_current_state, write_tape_accept_state,
    write_tape_reject_state, write_tape_status, ensure_tape_current_state,
    ensure_tape_accept_state, ensure_tape_reject_state, ensure_tape_status]
  repeat' split
  all_goals simp_all

theorem step_exec_ret (tm : TuringMachine) (idx : Nat)
    (hs : ¬(tm.status = RunStatus.Accepted ∨ tm.status = RunStatus.Rejected))
    (ha : ¬tm.current_state = tm.accept_state)
    (hr : ¬tm.current_state = tm.reject_state)
    (hf : tm.find_transition tm.current_state ((tm.read_tape).2) = some idx) :
    (tm.step).2 =
      (if (tm.transitions.getD idx default).new_state = tm.accept_state then false
       else if (tm.transitions.getD idx default).new_state = tm.reject_state then false
       else if (tm.transitions.getD idx default).has_breakpoint
           || tm.state_breakpoints.contains (tm.transitions.getD idx default).new_state then
        false
       else true) := by
  rw [step_exec tm idx hs ha hr hf]
  dsimp only
  rcases hdir : (tm.transitions.getD idx default).direction
  all_goals dsimp only
  all_goals simp only [read_tape_fst, write_tape_current_state, write_tape_accept_state,
    write_tape_reject_state, write_tape_state_breakpoints, ensure_tape_current_state,
    ensure_tape_accept_state, ensure_tape_reject_state, ensure_tape_state_breakpoints]
  repeat' split
  all_goals simp_all

theorem step_exec_tape (tm : TuringMachine) (idx : Nat)
    (hs : ¬(tm.status = RunStatus.Accepted ∨ tm.status = RunStatus.Rejected))
    (ha : ¬tm.current_state = tm.accept_state)
    (hr : ¬tm.current_state = tm.reject_state)
    (hf : tm.find_transition tm.current_state ((tm.read_tape).2) = some idx) (q : Int) :
    (tm.step).1.tape_at q =
      if q = tm.head_pos then (tm.transitions.getD idx default).write_symbol
      else tm.tape_at q := by
  rw [step_exec tm idx hs ha hr hf]
  dsimp only
  rcases hdir : (tm.transitions.getD idx default).direction
  all_goals dsimp only
  repeat' split
  all_goals refine (tape_at_congr _ ((tm.read_tape).1.write_tape
    (tm.transitions.getD idx default).write_symbol) rfl rfl q).trans ?_
  all_goals rw [read_tape_fst, tape_at_write_tape, tape_at_ensure_tape, ensure_tape_head_pos]
  all_goals simp_all

/-- Terminal guard: an `Accepted`/`Rejected` machine is returned untouched. -/
theorem step_of_terminal (tm : TuringMachine)
    (h : tm.status = RunStatus.Accepted ∨ tm.status = RunStatus.Rejected) :
    tm.step = (tm, false) := by
  unfold step
  rw [if_pos h]

/-- Accept-state guard: sitting on the accept state flips status to
`Accepted` with no other change. -/
theorem step_enter_accept (tm : TuringMachine)
    (hs : ¬(tm.status = RunStatus.Accepted ∨ tm.status = RunStatus.Rejected))
    (ha : tm.current_state = tm.accept_state) :
    tm.step = ({ tm with status := RunStatus.Accepted }, false) := by
  unfold step
  rw [if_neg hs, if_pos ha]

/-- Reject-state guard. -/
theorem step_enter_reject (tm : TuringMachine)
    (hs : ¬(tm.status = RunStatus.Accepted ∨ tm.status = RunStatus.Rejected))
    (ha : ¬tm.current_state = tm.accept_state)
    (hr : tm.current_state = tm.reject_state) :
    tm.step = ({ tm with status := RunStatus.Rejected }, false) := by
  unfold step
  rw [if_neg hs, if_neg ha, if_pos hr]

/-- Missing rule: the machine (grown by the read) is rejected. -/
theorem step_none (tm : TuringMachine)
    (hs : ¬(tm.status = RunStatus.Accepted ∨ tm.status = RunStatus.Rejected))
    (ha : ¬tm.current_state = tm.accept_state)
    (hr : ¬tm.current_state = tm.reject_state)
    (hfn : tm.find_transition tm.current_state ((tm.read_tape).2) = none) :
    tm.step = ({ (tm.read_tape).1 with status := RunStatus.Rejected }, false) := by
  unfold step
  dsimp only
  rw [if_neg hs, if_neg ha, if_neg hr]
  rw [show ((tm.read_tape).1).find_transition ((tm.read_tape).1).current_state
      ((tm.read_tape).2) = tm.find_transition tm.current_state ((tm.read_tape).2) by
    rw [read_tape_fst, ensure_tape_current_state, find_transition_ensure_tape]]
  rw [hfn]

/-- Lemma: `find_transition` misses exactly when no stored transition carries the
key. -/
theorem find_transition_eq_none_iff (tm : TuringMachine) (state : String)
    (sym : Symbol) :
    tm.find_transition state sym = none ↔
      ∀ u ∈ tm.transitions, ¬(u.current_state = state ∧ u.read_symbol = sym) := by
  unfold find_transition
  rw [List.findIdx?_eq_none_iff]
  constructor
  · intro h u hu
    have hb := h u hu
    simp only [Bool.and_eq_false_iff, beq_eq_false_iff_ne, ne_eq] at hb
    tauto
  · intro h u hu
    have hb := h u hu
    simp only [Bool.and_eq_false_iff, beq_eq_false_iff_ne, ne_eq]
    tauto

/-- Reading at a position returns the abstract content there. -/
theorem read_at_eq_tape_at (tm : TuringMachine) (p : Int) :
    tm.read_at p = tm.tape_at p := by
  unfold read_at
  rw [read_tape_snd]
  rfl

/-- Writing at a position sets exactly that position. -/
theorem tape_at_write_at (tm : TuringMachine) (w : Int) (s : Symbol) (q : Int) :
    (tm.write_at w s).tape_at q = if q = w then s else tm.tape_at q := by
  unfold write_at
  rw [tape_at_write_tape]
  rfl

/-- Content after a sequence of tape operations: the last write at the
position if one exists, otherwise the starting content. -/
theorem tape_at_applyTapeOps (ops : List TapeOp) (tm : TuringMachine) (p : Int) :
    (tm.applyTapeOps ops).tape_at p =
      match lastWrite ops p with
      | some s => s
      | none => tm.tape_at p := by
  induction ops generalizing tm with
  | nil => rfl
  | cons op ops ih =>
    show ((tm.applyTapeOp op).applyTapeOps ops).tape_at p = _
    rw [ih]
    cases op with
    | ensure w =>
      show (match lastWrite ops p with
        | some s => s
        | none => (tm.ensure_tape w).tape_at p) = _
      cases hlw : lastWrite ops p with
      | some s => simp [lastWrite, hlw]
      | none => simp [lastWrite, hlw, tape_at_ensure_tape]
    | write w s =>
      show (match lastWrite ops p with
        | some s => s
        | none => (tm.write_at w s).tape_at p) = _
      cases hlw : lastWrite ops p with
      | some s => simp [lastWrite, hlw]
      | none =>
        rw [tape_at_write_at]
        by_cases hpw : p = w
        · subst hpw
          simp [lastWrite, hlw]
        · have hwp : ¬w = p := fun h => hpw h.symm
          simp [lastWrite, hlw, hpw, hwp]

/-- Every `step` either moves nothing, or moves the head one cell and counts
one step. -/
theorem step_head_count (tm : TuringMachine) :
    ((tm.step).1.head_pos = tm.head_pos ∧ (tm.step).1.step_count = tm.step_count)
    ∨ (((tm.step).1.head_pos = tm.head_pos - 1 ∨ (tm.step).1.head_pos = tm.head_pos + 1)
        ∧ (tm.step).1.step_count = tm.step_count + 1) := by
  by_cases hs : tm.status = RunStatus.Accepted ∨ tm.status = RunStatus.Rejected
  · left
    rw [step_of_terminal tm hs]
    exact ⟨rfl, rfl⟩
  · by_cases ha : tm.current_state = tm.accept_state
    · left
      rw [step_enter_accept tm hs ha]
      exact ⟨rfl, rfl⟩
    · by_cases hr : tm.current_state = tm.reject_state
      · left
        rw [step_enter_reject tm hs ha hr]
        exact ⟨rfl, rfl⟩
      · cases hf : tm.find_transition tm.current_state ((tm.read_tape).2) with
        | none =>
          left
          rw [step_none tm hs ha hr hf]
          constructor
          · simp
          · simp
        | some idx =>
          right
          have hm := step_exec_main tm idx hs ha hr hf
          refine ⟨?_, hm.2.1⟩
          rcases hdir : (tm.transitions.getD idx default).direction
          · exact Or.inl (hm.2.2.2.2.2.2.2.1 hdir)
          · exact Or.inr (hm.2.2.2.2.2.2.2.2 hdir)

/-! ### Claim theorems -/

/-- C4: when the status is already `Accepted` or `Rejected`, `step()` returns
false and mutates nothing — the returned machine is identical to the input. -/
theorem step_terminal_noop (tm : TuringMachine)
    (h : tm.status = RunStatus.Accepted ∨ tm.status = RunStatus.Rejected) :
    tm.step = (tm, false) :=
  step_of_terminal tm h

/-- Witness for C4 at a concrete accepted machine. -/
theorem step_terminal_noop_witness :
    acceptedMachine.step = (acceptedMachine, false) :=
  step_terminal_noop acceptedMachine (Or.inl rfl)

/-- C1 counterexample: a machine whose status is already `Accepted` and whose
table is empty satisfies the hypothesis of the claim — no transition matches
the current state and the symbol under the head — yet `step()` leaves the
status `Accepted` instead of setting it to `Rejected`. -/
theorem step_no_transition_claim_counterexample :
    acceptedMachine.find_transition acceptedMachine.current_state
        ((acceptedMachine.read_tape).2) = none
    ∧ ¬((acceptedMachine.step).1.status = RunStatus.Rejected) := by
  decide

/-- C1 (amended): when the status is not yet terminal and the current state is
neither the accept- nor the reject-state name, a missing transition for
(current state, symbol under head) makes `step()` set status `Rejected` and
return false, leaving head position and step counter unchanged. -/
theorem step_no_transition_rejects (tm : TuringMachine)
    (hs : ¬(tm.status = RunStatus.Accepted ∨ tm.status = RunStatus.Rejected))
    (ha : ¬tm.current_state = tm.accept_state)
    (hr : ¬tm.current_state = tm.reject_state)
    (hfn : tm.find_transition tm.current_state ((tm.read_tape).2) = none) :
    (tm.step).1.status = RunStatus.Rejected
    ∧ (tm.step).2 = false
    ∧ (tm.step).1.head_pos = tm.head_pos
    ∧ (tm.step).1.step_count = tm.step_count := by
  rw [step_none tm hs ha hr hfn]
  refine ⟨rfl, rfl, ?_, ?_⟩
  · simp
  · simp

/-- Witness for the amended C1 on the fresh machine (empty table). -/
theorem step_no_transition_rejects_witness :
    (new.step).1.status = RunStatus.Rejected
    ∧ (new.step).2 = false
    ∧ (new.step).1.head_pos = new.head_pos
    ∧ (new.step).1.step_count = new.step_count :=
  step_no_transition_rejects new (by decide) (by decide) (by decide) (by decide)

/-- C2: an executed transition whose new state is the accept-state name makes
`step()` set status `Accepted` and return false; one into the reject-state
name makes it set `Rejected` and return false; the executed transition is
counted, so the step counter rises by exactly 1. (The hypothesis
`accept_state ≠ reject_state` holds in every machine the program builds: the
names are fixed at "qa"/"qr" by `TuringMachine::new` and never reassigned.) -/
theorem step_into_accept_or_reject (tm : TuringMachine) (idx : Nat)
    (hne : ¬tm.accept_state = tm.reject_state)
    (hs : ¬(tm.status = RunStatus.Accepted ∨ tm.status = RunStatus.Rejected))
    (ha : ¬tm.current_state = tm.accept_state)
    (hr : ¬tm.current_state = tm.reject_state)
    (hf : tm.find_transition tm.current_state ((tm.read_tape).2) = some idx) :
    ((tm.transitions.getD idx default).new_state = tm.accept_state →
      (tm.step).1.status = RunStatus.Accepted ∧ (tm.step).2 = false)
    ∧ ((tm.transitions.getD idx default).new_state = tm.reject_state →
      (tm.step).1.status = RunStatus.Rejected ∧ (tm.step).2 = false)
    ∧ (tm.step).1.step_count = tm.step_count + 1 := by
  have hst := step_exec_status tm idx hs ha hr hf
  have hrt := step_exec_ret tm idx hs ha hr hf
  have hm := step_exec_main tm idx hs ha hr hf
  refine ⟨?_, ?_, hm.2.1⟩
  · intro h
    rw [hst, hrt, if_pos h, if_pos h]
    exact ⟨rfl, rfl⟩
  · intro h
    have hna : ¬(tm.transitions.getD idx default).new_state = tm.accept_state := by
      intro hh
      exact hne (hh.symm.trans h)
    rw [hst, hrt, if_neg hna, if_neg hna, if_pos h, if_pos h]
    exact ⟨rfl, rfl⟩

/-- Witness for C2 on a one-rule machine stepping into the accept state. -/
theorem step_into_accept_or_reject_witness :
    ((acceptRuleMachine.step).1.status = RunStatus.Accepted
      ∧ (acceptRuleMachine.step).2 = false)
    ∧ (acceptRuleMachine.step).1.step_count = acceptRuleMachine.step_count + 1 := by
  have h := step_into_accept_or_reject acceptRuleMachine 0
    (by decide) (by decide) (by decide) (by decide) (by decide)
  exact ⟨h.1 (by decide), h.2.2⟩

/-- C3: an executed transition carrying `has_breakpoint` whose result state is
neither accept nor reject: the counter rises by 1, tape, head and current
state are updated per the transition, and `step()` returns false while the
status is exactly what it was before. -/
theorem step_breakpoint_transition_pauses (tm : TuringMachine) (idx : Nat)
    (hs : ¬(tm.status = RunStatus.Accepted ∨ tm.status = RunStatus.Rejected))
    (ha : ¬tm.current_state = tm.accept_state)
    (hr : ¬tm.current_state = tm.reject_state)
    (hf : tm.find_transition tm.current_state ((tm.read_tape).2) = some idx)
    (hbp : (tm.transitions.getD idx default).has_breakpoint = true)
    (hna : ¬(tm.transitions.getD idx default).new_state = tm.accept_state)
    (hnr : ¬(tm.transitions.getD idx default).new_state = tm.reject_state) :
    (tm.step).2 = false
    ∧ (tm.step).1.status = tm.status
    ∧ (tm.step).1.step_count = tm.step_count + 1
    ∧ (tm.step).1.current_state = (tm.transitions.getD idx default).new_state
    ∧ ((tm.transitions.getD idx default).direction = Direction.Left →
        (tm.step).1.head_pos = tm.head_pos - 1)
    ∧ ((tm.transitions.getD idx default).direction = Direction.Right →
        (tm.step).1.head_pos = tm.head_pos + 1)
    ∧ (∀ q, (tm.step).1.tape_at q =
        if q = tm.head_pos then (tm.transitions.getD idx default).write_symbol
        else tm.tape_at q) := by
  have hst := step_exec_status tm idx hs ha hr hf
  have hrt := step_exec_ret tm idx hs ha hr hf
  have hm := step_exec_main tm idx hs ha hr hf
  refine ⟨?_, ?_, hm.2.1, hm.1, hm.2.2.2.2.2.2.2.1, hm.2.2.2.2.2.2.2.2,
    step_exec_tape tm idx hs ha hr hf⟩
  · rw [hrt, if_neg hna, if_neg hnr, hbp]
    simp
  · rw [hst, if_neg hna, if_neg hnr]

/-- Witness for C3 on a one-rule machine whose rule carries a breakpoint. -/
theorem step_breakpoint_transition_pauses_witness :
    (breakpointRuleMachine.step).2 = false
    ∧ (breakpointRuleMachine.step).1.status = breakpointRuleMachine.status
    ∧ (breakpointRuleMachine.step).1.step_count
      = breakpointRuleMachine.step_count + 1 := by
  have h := step_breakpoint_transition_pauses breakpointRuleMachine 0
    (by decide) (by decide) (by decide) (by decide) (by decide) (by decide) (by decide)
  exact ⟨h.1, h.2.1, h.2.2.1⟩

/-- C5: starting from the freshly constructed all-blank engine, after any
sequence of tape operations a read at `p` (which first ensures `p`) returns
the last symbol written at `p`, or `Blank` if `p` was never written; in
particular a write at `p` followed by growing the window to some `q < p`
leaves the symbol readable at its original absolute position `p`. -/
theorem tape_reads_last_write :
    (∀ (ops : List TapeOp) (p : Int),
      (new.applyTapeOps ops).read_at p = (lastWrite ops p).getD Symbol.Blank)
    ∧ (∀ (p q : Int) (s : Symbol), q < p →
      ((new.write_at p s).ensure_tape q).read_at p = s) := by
  constructor
  · intro ops p
    rw [read_at_eq_tape_at, tape_at_applyTapeOps]
    cases hlw : lastWrite ops p
    · simp only [Option.getD_none]
      exact tape_at_of_replicate_blank new 101 rfl p
    · rfl
  · intro p q s _
    rw [read_at_eq_tape_at, tape_at_ensure_tape, tape_at_write_at, if_pos rfl]

/-- Witness for C5: write `One` at position 2, grow the window leftward to
position −3, read position 2 back. -/
theorem tape_reads_last_write_witness :
    ((-3 : Int) < 2)
    ∧ ((new.write_at 2 Symbol.One).ensure_tape (-3)).read_at 2 = Symbol.One :=
  ⟨by decide, tape_reads_last_write.2 2 (-3) Symbol.One (by decide)⟩

/-- C6: `reset()` zeroes the step counter, returns the status to `Idle`, the
current state to the start-state name, the head to 0, blanks every tape
position, and leaves the transition table (breakpoint flags included) and the
state-breakpoint set untouched. -/
theorem reset_restores_initial_run_state (tm : TuringMachine) :
    (tm.reset).step_count = 0
    ∧ (tm.reset).status = RunStatus.Idle
    ∧ (tm.reset).current_state = tm.start_state
    ∧ (tm.reset).head_pos = 0
    ∧ (∀ p, (tm.reset).tape_at p = Symbol.Blank)
    ∧ (tm.reset).transitions = tm.transitions
    ∧ (tm.reset).state_breakpoints = tm.state_breakpoints := by
  refine ⟨rfl, rfl, rfl, rfl, ?_, rfl, rfl⟩
  intro p
  exact tape_at_of_replicate_blank tm.reset 101 rfl p

/-- C7: adding a transition whose `(current_state, read_symbol)` key is
already present returns false and leaves the table untouched; adding one with
a fresh key appends it and succeeds. -/
theorem add_transition_duplicate_rejected (tm : TuringMachine) (t : Transition) :
    ((∃ u ∈ tm.transitions,
        u.current_state = t.current_state ∧ u.read_symbol = t.read_symbol) →
      tm.add_transition t = (tm, false))
    ∧ (¬(∃ u ∈ tm.transitions,
        u.current_state = t.current_state ∧ u.read_symbol = t.read_symbol) →
      tm.add_transition t
        = ({ tm with transitions := tm.transitions ++ [t] }, true)) := by
  constructor
  · intro hdup
    unfold add_transition
    rw [if_neg]
    intro hnone
    rw [Option.isNone_iff_eq_none, find_transition_eq_none_iff] at hnone
    obtain ⟨u, hu, h1, h2⟩ := hdup
    exact hnone u hu ⟨h1, h2⟩
  · intro hfresh
    unfold add_transition
    rw [if_pos]
    rw [Option.isNone_iff_eq_none, find_transition_eq_none_iff]
    intro u hu hk
    exact hfresh ⟨u, hu, hk.1, hk.2⟩

/-- Witness for C7: inserting a transition with the already-present key
`(q0, Zero)` is rejected, and inserting it into the empty table succeeds. -/
theorem add_transition_duplicate_rejected_witness :
    oneRuleMachine.add_transition clashingTransition = (oneRuleMachine, false)
    ∧ new.add_transition clashingTransition
      = ({ new with transitions := new.transitions ++ [clashingTransition] }, true) :=
  ⟨(add_transition_duplicate_rejected oneRuleMachine clashingTransition).1
      ⟨baseTransition, by decide, rfl, rfl⟩,
    (add_transition_duplicate_rejected new clashingTransition).2
      (by rintro ⟨u, hu, h1, h2⟩; simp [new] at hu)⟩

/-- C8: the unary-increment machine, started on tape `11` with the head at 0,
is `Accepted` after exactly three `step()` calls, with `One` now at position
2; its initial window indeed holds `One` exactly at positions 0 and 1 with
the head at 0. -/
theorem increment_machine_accepts_in_three_steps :
    incrementMachine.step.1.step.1.step.1.status = RunStatus.Accepted
    ∧ incrementMachine.step.1.step.1.step.1.step_count = 3
    ∧ incrementMachine.step.1.step.1.step.1.tape_at 2 = Symbol.One
    ∧ incrementMachine.head_pos = 0
    ∧ incrementMachine.step_count = 0
    ∧ incrementMachine.tape_at 0 = Symbol.One
    ∧ incrementMachine.tape_at 1 = Symbol.One
    ∧ incrementMachine.tape_at 2 = Symbol.Blank := by
  decide

/-- C9 (spec-modelled): the stored timer speed after `set_speed(ms)` always
lies in `[50, 2000]`, with out-of-range requests clamped to the nearest
bound and in-range requests stored exactly. -/
theorem set_speed_clamped (tm : TuringMachine) (ms : Int) :
    50 ≤ (tm.set_speed ms).timer_speed_ms
    ∧ (tm.set_speed ms).timer_speed_ms ≤ 2000
    ∧ (ms < 50 → (tm.set_speed ms).timer_speed_ms = 50)
    ∧ (2000 < ms → (tm.set_speed ms).timer_speed_ms = 2000)
    ∧ (50 ≤ ms → ms ≤ 2000 → ((tm.set_speed ms).timer_speed_ms : Int) = ms) := by
  unfold set_speed
  dsimp only
  rcases le_total ms 50 with h50 | h50 <;> rcases le_total ms 2000 with h2k | h2k <;>
    simp [max_def, min_def, h50, h2k] <;> omega

/-- Witness for C9 at a too-small and a too-large request. -/
theorem set_speed_clamped_witness :
    (new.set_speed 7).timer_speed_ms = 50
    ∧ (new.set_speed 9999).timer_speed_ms = 2000 :=
  ⟨(set_speed_clamped new 7).2.2.1 (by decide),
    (set_speed_clamped new 9999).2.2.2.1 (by decide)⟩

/-- C10: after `reset()` and any number of `step()` calls the head is at most
`step_count` cells from the origin, because each individual `step()` either
leaves head and counter unchanged or moves the head by exactly one cell while
counting exactly one step. -/
theorem head_within_step_count :
    (∀ (tm : TuringMachine) (n : Nat),
      ((tm.reset.run_steps n).head_pos).natAbs ≤ (tm.reset.run_steps n).step_count)
    ∧ (∀ tm : TuringMachine,
      ((tm.step).1.head_pos = tm.head_pos ∧ (tm.step).1.step_count = tm.step_count)
      ∨ (((tm.step).1.head_pos = tm.head_pos - 1 ∨ (tm.step).1.head_pos = tm.head_pos + 1)
          ∧ (tm.step).1.step_count = tm.step_count + 1)) := by
  constructor
  · intro tm n
    induction n with
    | zero =>
      show ((tm.reset).head_pos).natAbs ≤ (tm.reset).step_count
      rfl
    | succ n ih =>
      have h := step_head_count (tm.reset.run_steps n)
      show (((tm.reset.run_steps n).step).1.head_pos).natAbs
        ≤ ((tm.reset.run_steps n).step).1.step_count
      rcases h with ⟨h1, h2⟩ | ⟨h1 | h1, h2⟩ <;> rw [h1, h2] <;> omega
  · exact step_head_count

end TuringMachine

end TM
